import Mathlib

/-!
Shallow embedding of the ORION heartbeat scheduler
(`src/orion_heartbeat.py`) and proofs about its claims.

Modelling conventions:
- Times are integer seconds (`Int`); the Python code works with UTC
  datetimes and compares elapsed `total_seconds()` against the integer
  `interval`.  Each scheduler tick is modelled with a single `now`
  parameter (the Python code re-reads the clock inside one tick, but no
  property here depends on sub-tick clock drift).
- A task's `action` is a zero-argument callable that either returns a
  result or raises; it is modelled by its outcome, `Except String String`
  (error message or result value).
- File persistence (`ORION_HEARTBEAT_STATE.json`, `ORION_HEARTBEAT.jsonl`)
  is modelled by an explicit `World` record holding the snapshot file and
  the append-only pulse log.  Snapshot fields other than `total_pulses`
  (`running`, `start_time`, `tasks`, `last_save`) are written by
  `_save_state` but never read back by `_load_state`, so the model keeps
  only the `total_pulses` field.
- `HeartbeatPulse.pulse_id` (a sha256 prefix of timestamp + action) and
  the wall-clock `timestamp` string are not modelled; no claim concerns
  them.  The background thread of `start()` is not modelled; ticks are
  explicit `pulse` calls, matching `single_pulse()`.
-/

namespace Orion

/-- Outcome of one task execution, modelling the returned dict
of `AutonomousTask.execute`: on success the Python code returns
a dict with success = True and the result, on failure a dict with
success = False and the error message. -/
inductive Outcome where
  | success (result : String)
  | failure (error : String)
deriving DecidableEq

/-- Decidable equality for modelled action outcomes. -/
instance : DecidableEq (Except String String) := fun x y =>
  match x, y with
  | Except.ok a, Except.ok b => decidable_of_iff (a = b) (by simp)
  | Except.ok _, Except.error _ => Decidable.isFalse (by simp)
  | Except.error _, Except.ok _ => Decidable.isFalse (by simp)
  | Except.error a, Except.error b => decidable_of_iff (a = b) (by simp)

/-- `AutonomousTask`: name, interval (seconds), action (modelled by its
outcome), priority, plus the mutable run metadata `last_run`,
`run_count`, `errors`. -/
structure Task where
  name : String
  interval : Int
  action : Except String String
  priority : Int
  last_run : Option Int
  run_count : Nat
  errors : Nat
deriving DecidableEq

/-- `AutonomousTask.__init__(name, interval_seconds, action, priority=5)`:
stores the configuration unchanged and initialises `last_run = None`,
`run_count = 0`, `errors = 0`.  There is no validation of any argument. -/
def mkTask (name : String) (interval_seconds : Int)
    (action : Except String String) (priority : Int) : Task :=
  ⟨name, interval_seconds, action, priority, none, 0, 0⟩

/-- `AutonomousTask.should_run`: true if `last_run` is `None`, otherwise
true iff the elapsed time `now - last_run` is at least `interval`. -/
def should_run (t : Task) (now : Int) : Bool :=
  match t.last_run with
  | none => true
  | some lr => decide (t.interval ≤ now - lr)

/-- `AutonomousTask.execute`: calls the action; on normal return sets
`last_run` to the current time, increments `run_count` and returns the
success dict; if the action raises, increments `errors` and returns the
failure dict — `last_run` is not touched on the failure path. -/
def execute (t : Task) (now : Int) : Outcome × Task :=
  match t.action with
  | Except.ok r =>
      (Outcome.success r,
        { t with last_run := some now, run_count := t.run_count + 1 })
  | Except.error e =>
      (Outcome.failure e, { t with errors := t.errors + 1 })

/-- One entry of a pulse's `details` list: the task name and the dict
returned by `execute`. -/
structure PulseExecEntry where
  task : String
  result : Outcome
deriving DecidableEq

/-- `HeartbeatPulse` for the action "heartbeat", with its `result` dict
flattened: `pulse_number`, `tasks_executed` and `details`.  The
`pulse_id` hash and the timestamp string are not modelled. -/
structure HeartbeatPulse where
  action : String
  pulse_number : Nat
  tasks_executed : Nat
  details : List PulseExecEntry
deriving DecidableEq

/-- `OrionHeartbeat` mutable state: the task registry, the `running`
flag and the pulse counter.  (`start_time` and the thread handle are
not modelled; no claim concerns them.) -/
structure Heartbeat where
  tasks : List Task
  running : Bool
  pulse_count : Nat
deriving DecidableEq

/-- Insert a task into an already descending-priority-sorted list,
after all entries of greater or equal priority.  This is the effect of
appending the task and re-running a stable sort, as
`OrionHeartbeat.register_task` does. -/
def insert_sorted (t : Task) : List Task → List Task
  | [] => [t]
  | u :: us =>
      if t.priority ≤ u.priority then u :: insert_sorted t us
      else t :: u :: us

/-- Stable sort by descending priority, modelling Python's
`list.sort(key=lambda t: -t.priority)` (Timsort is stable): elements are
placed left to right, each after the already-placed entries of greater
or equal priority, so equal-priority elements keep their input order. -/
def sortByPriorityDesc (l : List Task) : List Task :=
  l.foldl (fun acc t => insert_sorted t acc) []

/-- `OrionHeartbeat.register_task`: appends the task to the registry and
re-sorts by descending priority with a stable sort.  No validation. -/
def register_task (hb : Heartbeat) (t : Task) : Heartbeat :=
  { hb with tasks := sortByPriorityDesc (hb.tasks ++ [t]) }

/-- The state snapshot file `ORION_HEARTBEAT_STATE.json` as
`_load_state` can encounter it: absent, present but not valid JSON, or
parsed JSON whose `total_pulses` field may be missing. -/
inductive SnapshotFile where
  | absent
  | unparseable
  | parsed (total_pulses : Option Nat)
deriving DecidableEq

/-- `OrionHeartbeat._load_state` combined with the `pulse_count = 0`
initialisation of `__init__`: the resulting `pulse_count`.  A missing
file leaves the initial 0; a JSON parse error is swallowed by the bare
`except: pass`, leaving 0; a parsed state uses
`state.get("total_pulses", 0)`. -/
def loadState : SnapshotFile → Nat
  | SnapshotFile.absent => 0
  | SnapshotFile.unparseable => 0
  | SnapshotFile.parsed tp => tp.getD 0

/-- The file system as the scheduler sees it: the snapshot file and the
append-only pulse log `ORION_HEARTBEAT.jsonl`. -/
structure World where
  state_file : SnapshotFile
  log : List HeartbeatPulse
deriving DecidableEq

/-- `OrionHeartbeat._save_state`: overwrites the snapshot file with the
current state; only the `total_pulses` field is ever read back. -/
def save_state (hb : Heartbeat) (w : World) : World :=
  { w with state_file := SnapshotFile.parsed (some hb.pulse_count) }

/-- `OrionHeartbeat._log_pulse`: appends one serialized pulse to the
log file. -/
def log_pulse (p : HeartbeatPulse) (w : World) : World :=
  { w with log := w.log ++ [p] }

/-- The task loop inside `OrionHeartbeat.pulse`: walk the registry in
order; for each due task call `execute` and record the outcome entry;
tasks that are not due are left untouched and absent from the entries.
Returns the `executed` list and the updated registry (the Python code
mutates the tasks in place, keeping the list order). -/
def runTasks : List Task → Int → List PulseExecEntry × List Task
  | [], _ => ([], [])
  | t :: rest, now =>
      if should_run t now then
        ((PulseExecEntry.mk t.name (execute t now).1) :: (runTasks rest now).1,
          (execute t now).2 :: (runTasks rest now).2)
      else
        ((runTasks rest now).1, t :: (runTasks rest now).2)

/-- `OrionHeartbeat.pulse`: increments `pulse_count`, executes the due
tasks in registry order, assembles the `HeartbeatPulse`, appends it to
the log, writes the state snapshot, and returns the pulse. -/
def pulse (hb : Heartbeat) (w : World) (now : Int) :
    HeartbeatPulse × Heartbeat × World :=
  let executed := (runTasks hb.tasks now).1
  let p : HeartbeatPulse :=
    ⟨"heartbeat", hb.pulse_count + 1, executed.length, executed⟩
  let hb' : Heartbeat :=
    ⟨(runTasks hb.tasks now).2, hb.running, hb.pulse_count + 1⟩
  (p, hb', save_state hb' (log_pulse p w))

/-- `OrionHeartbeat.stop`: clears the `running` flag and saves the
state; `pulse_count` is unchanged. -/
def stop (hb : Heartbeat) (w : World) : Heartbeat × World :=
  (⟨hb.tasks, false, hb.pulse_count⟩,
    save_state ⟨hb.tasks, false, hb.pulse_count⟩ w)

/-- `OrionHeartbeat.__init__`: starts from an empty registry, a cleared
`running` flag and `pulse_count = 0`, loads the snapshot via
`_load_state`, then registers the core tasks via `register_task`
(`_register_core_tasks`; the six concrete core tasks carry opaque
actions, so the core task list is an arbitrary parameter here). -/
def mkHeartbeat (core : List Task) (w : World) : Heartbeat :=
  core.foldl register_task ⟨[], false, loadState w.state_file⟩

/-- One per-task line of `OrionHeartbeat.status()`. -/
structure TaskStatus where
  name : String
  interval : Int
  run_count : Nat
  errors : Nat
  priority : Int
deriving DecidableEq

/-- The dict returned by `OrionHeartbeat.status()` (the uptime string,
which depends on the unmodelled `start_time`, is omitted). -/
structure Status where
  version : String
  running : Bool
  pulse_count : Nat
  tasks : List TaskStatus
deriving DecidableEq

/-- `OrionHeartbeat.status`: a read-only projection of the scheduler
state. -/
def status (hb : Heartbeat) : Status :=
  ⟨"1.0.0", hb.running, hb.pulse_count,
    hb.tasks.map (fun t => ⟨t.name, t.interval, t.run_count, t.errors, t.priority⟩)⟩

/-- A sequence of consecutive ticks: repeated `pulse` calls at the given
times, threading scheduler and world state, collecting the pulses. -/
def runPulses (hb : Heartbeat) (w : World) :
    List Int → Heartbeat × World × List HeartbeatPulse
  | [] => (hb, w, [])
  | now :: rest =>
      ((runPulses (pulse hb w now).2.1 (pulse hb w now).2.2 rest).1,
        (runPulses (pulse hb w now).2.1 (pulse hb w now).2.2 rest).2.1,
        (pulse hb w now).1 ::
          (runPulses (pulse hb w now).2.1 (pulse hb w now).2.2 rest).2.2)

/-- Events of a scheduler lifetime: a tick at some time, a `stop`, or a
process restart (constructing a fresh `OrionHeartbeat`, which re-reads
the snapshot file and re-registers the core tasks). -/
inductive Event where
  | tick (now : Int)
  | stopEv
  | restart
deriving DecidableEq

/-- A system trace state: current scheduler, file system, and the pulse
numbers emitted so far. -/
structure SysState where
  hb : Heartbeat
  world : World
  emitted : List Nat
deriving DecidableEq

/-- One lifetime event applied to the trace state. -/
def stepEvent (core : List Task) (s : SysState) : Event → SysState
  | Event.tick now =>
      ⟨(pulse s.hb s.world now).2.1, (pulse s.hb s.world now).2.2,
        s.emitted ++ [(pulse s.hb s.world now).1.pulse_number]⟩
  | Event.stopEv =>
      ⟨(stop s.hb s.world).1, (stop s.hb s.world).2, s.emitted⟩
  | Event.restart => ⟨mkHeartbeat core s.world, s.world, s.emitted⟩

/-- A fresh deployment: no snapshot file yet, empty log. -/
def initWorld : World := ⟨SnapshotFile.absent, []⟩

/-- Run a whole scheduler lifetime from a fresh deployment. -/
def runEvents (core : List Task) (es : List Event) : SysState :=
  es.foldl (stepEvent core) ⟨mkHeartbeat core initWorld, initWorld, []⟩

/-- Number of ticks in a lifetime. -/
def numTicks (es : List Event) : Nat :=
  es.countP (fun e => match e with | Event.tick _ => true | _ => false)

/-- Membership in an insertion is membership in the inserted element or
the original list. -/
theorem mem_insert_sorted {x t : Task} :
    ∀ {l : List Task}, x ∈ insert_sorted t l ↔ x = t ∨ x ∈ l := by
  intro l
  induction l with
  | nil => simp [insert_sorted]
  | cons u us ih =>
      simp only [insert_sorted]
      by_cases h : t.priority ≤ u.priority
      · simp only [if_pos h, List.mem_cons, ih]
        tauto
      · simp [if_neg h]

/-- Inserting into a descending-priority-sorted list keeps it sorted. -/
theorem insert_sorted_pairwise {t : Task} :
    ∀ {l : List Task},
      List.Pairwise (fun a b => b.priority ≤ a.priority) l →
      List.Pairwise (fun a b => b.priority ≤ a.priority) (insert_sorted t l) := by
  intro l
  induction l with
  | nil => intro _; simp [insert_sorted]
  | cons u us ih =>
      intro hl
      rw [List.pairwise_cons] at hl
      obtain ⟨hu, hus⟩ := hl
      simp only [insert_sorted]
      by_cases h : t.priority ≤ u.priority
      · rw [if_pos h, List.pairwise_cons]
        refine ⟨?_, ih hus⟩
        intro x hx
        rcases mem_insert_sorted.mp hx with rfl | hx'
        · exact h
        · exact hu x hx'
      · rw [if_neg h, List.pairwise_cons]
        refine ⟨?_, ?_⟩
        · intro x hx
          rcases List.mem_cons.mp hx with rfl | hx'
          · omega
          · have := hu x hx'
            omega
        · rw [List.pairwise_cons]
          exact ⟨hu, hus⟩

/-- The insertion fold keeps the accumulator sorted. -/
theorem foldl_insert_pairwise :
    ∀ (l acc : List Task),
      List.Pairwise (fun a b => b.priority ≤ a.priority) acc →
      List.Pairwise (fun a b => b.priority ≤ a.priority)
        (l.foldl (fun acc t => insert_sorted t acc) acc) := by
  intro l
  induction l with
  | nil => intro acc h; simpa using h
  | cons t rest ih =>
      intro acc h
      simpa using ih (insert_sorted t acc) (insert_sorted_pairwise h)

/-- The registry sort always returns a descending-priority-sorted
list. -/
theorem sortByPriorityDesc_pairwise (l : List Task) :
    List.Pairwise (fun a b => b.priority ≤ a.priority) (sortByPriorityDesc l) :=
  foldl_insert_pairwise l [] (by simp)

/-- Inserting an element of minimal priority appends it at the end. -/
theorem insert_sorted_of_le {t : Task} :
    ∀ {acc : List Task}, (∀ u ∈ acc, t.priority ≤ u.priority) →
      insert_sorted t acc = acc ++ [t] := by
  intro acc
  induction acc with
  | nil => intro _; simp [insert_sorted]
  | cons u us ih =>
      intro h
      simp only [insert_sorted]
      rw [if_pos (h u (by simp))]
      simp only [List.cons_append, List.cons.injEq, true_and]
      exact ih (fun x hx => h x (by simp [hx]))

/-- Folding insertions of a list that extends the accumulator to a
sorted whole is a no-op append. -/
theorem foldl_insert_of_pairwise :
    ∀ (l acc : List Task),
      List.Pairwise (fun a b => b.priority ≤ a.priority) (acc ++ l) →
      l.foldl (fun acc t => insert_sorted t acc) acc = acc ++ l := by
  intro l
  induction l with
  | nil => intro acc _; simp
  | cons t rest ih =>
      intro acc h
      have hmin : ∀ u ∈ acc, t.priority ≤ u.priority := by
        intro u hu
        have := (List.pairwise_append.mp h).2.2 u hu t (by simp)
        exact this
      have hstep : insert_sorted t acc = acc ++ [t] := insert_sorted_of_le hmin
      simp only [List.foldl_cons, hstep]
      have h' : List.Pairwise (fun a b => b.priority ≤ a.priority)
          ((acc ++ [t]) ++ rest) := by
        simpa [List.append_assoc] using h
      simpa [List.append_assoc] using ih (acc ++ [t]) h'

/-- Sorting a sorted list is the identity. -/
theorem sortByPriorityDesc_of_pairwise {l : List Task}
    (h : List.Pairwise (fun a b => b.priority ≤ a.priority) l) :
    sortByPriorityDesc l = l := by
  simpa [sortByPriorityDesc] using foldl_insert_of_pairwise l [] (by simpa using h)

/-- The registry sort is idempotent. -/
theorem sortByPriorityDesc_idem (l : List Task) :
    sortByPriorityDesc (sortByPriorityDesc l) = sortByPriorityDesc l :=
  sortByPriorityDesc_of_pairwise (sortByPriorityDesc_pairwise l)

/-- Sorting an appended list continues the insertion fold of the
prefix. -/
theorem sortByPriorityDesc_append (l rest : List Task) :
    sortByPriorityDesc (l ++ rest)
      = rest.foldl (fun acc t => insert_sorted t acc) (sortByPriorityDesc l) := by
  simp [sortByPriorityDesc, List.foldl_append]

/-- Sorting may be interposed before appending more elements. -/
theorem sortByPriorityDesc_sort_append (l rest : List Task) :
    sortByPriorityDesc (sortByPriorityDesc l ++ rest)
      = sortByPriorityDesc (l ++ rest) := by
  rw [sortByPriorityDesc_append, sortByPriorityDesc_append, sortByPriorityDesc_idem]

/-- A fold of registrations starting from a sorted registry yields the
sort of the whole registration sequence. -/
theorem foldl_register_tasks :
    ∀ (ts l : List Task) (r : Bool) (c : Nat),
      (ts.foldl register_task ⟨sortByPriorityDesc l, r, c⟩).tasks
        = sortByPriorityDesc (l ++ ts) := by
  intro ts
  induction ts with
  | nil => intro l r c; simp
  | cons t rest ih =>
      intro l r c
      have hstep : register_task ⟨sortByPriorityDesc l, r, c⟩ t
          = ⟨sortByPriorityDesc (l ++ [t]), r, c⟩ := by
        simp [register_task, sortByPriorityDesc_sort_append]
      simp only [List.foldl_cons, hstep]
      simpa [List.append_assoc] using ih (l ++ [t]) r c

/-- The registry after any sequence of registrations from an empty
registry is the stable descending sort of the registration sequence. -/
theorem registry_eq_sort (ts : List Task) (r : Bool) (c : Nat) :
    (ts.foldl register_task ⟨[], r, c⟩).tasks = sortByPriorityDesc ts := by
  have h := foldl_register_tasks ts [] r c
  simpa [sortByPriorityDesc] using h

/-- Filtering one priority class through an insertion into a sorted
accumulator appends the new element exactly when it belongs to the
class. -/
theorem insert_sorted_filter (p : Int) {t : Task} :
    ∀ {acc : List Task},
      List.Pairwise (fun a b => b.priority ≤ a.priority) acc →
      (insert_sorted t acc).filter (fun u => u.priority == p)
        = acc.filter (fun u => u.priority == p)
          ++ (if t.priority == p then [t] else []) := by
  intro acc
  induction acc with
  | nil =>
      intro _
      simp only [insert_sorted, List.filter]
      by_cases h : t.priority == p <;> simp [h]
  | cons u us ih =>
      intro hl
      rw [List.pairwise_cons] at hl
      obtain ⟨hu, hus⟩ := hl
      simp only [insert_sorted]
      by_cases h : t.priority ≤ u.priority
      · rw [if_pos h]
        by_cases hup : u.priority == p
        · simp [List.filter_cons, hup, ih hus]
        · simp [List.filter_cons, hup, ih hus]
      · rw [if_neg h]
        by_cases htp : t.priority == p
        · have htp' : t.priority = p := by simpa using htp
          have hnone : ∀ x ∈ u :: us, ¬ ((fun u => u.priority == p) x = true) := by
            intro x hx
            rcases List.mem_cons.mp hx with rfl | hx'
            · simp only [beq_iff_eq]
              omega
            · have := hu x hx'
              simp only [beq_iff_eq]
              omega
          have hfil : (u :: us).filter (fun u => u.priority == p) = [] :=
            List.filter_eq_nil_iff.mpr hnone
          simp [List.filter_cons, htp, hfil]
        · simp [List.filter_cons, htp]

/-- Filtering one priority class through the insertion fold preserves
the input order of that class. -/
theorem foldl_insert_filter (p : Int) :
    ∀ (l acc : List Task),
      List.Pairwise (fun a b => b.priority ≤ a.priority) acc →
      (l.foldl (fun acc t => insert_sorted t acc) acc).filter (fun u => u.priority == p)
        = acc.filter (fun u => u.priority == p) ++ l.filter (fun u => u.priority == p) := by
  intro l
  induction l with
  | nil => intro acc _; simp
  | cons t rest ih =>
      intro acc h
      simp only [List.foldl_cons]
      rw [ih (insert_sorted t acc) (insert_sorted_pairwise h),
        insert_sorted_filter p h]
      by_cases htp : t.priority == p <;>
        simp [List.filter_cons, htp, List.append_assoc]

/-- Stability of the registry sort: each priority class keeps its
original order. -/
theorem sortByPriorityDesc_filter (p : Int) (l : List Task) :
    (sortByPriorityDesc l).filter (fun u => u.priority == p)
      = l.filter (fun u => u.priority == p) := by
  simpa using foldl_insert_filter p l [] (by simp)

/-- Membership is preserved by the insertion fold. -/
theorem mem_foldl_insert {x : Task} :
    ∀ (l acc : List Task),
      (x ∈ l.foldl (fun acc t => insert_sorted t acc) acc ↔ x ∈ acc ∨ x ∈ l) := by
  intro l
  induction l with
  | nil => intro acc; simp
  | cons t rest ih =>
      intro acc
      simp only [List.foldl_cons]
      rw [ih (insert_sorted t acc)]
      rw [mem_insert_sorted]
      simp only [List.mem_cons]
      tauto

/-- Membership is preserved by the registry sort. -/
theorem mem_sortByPriorityDesc {x : Task} {l : List Task} :
    x ∈ sortByPriorityDesc l ↔ x ∈ l := by
  simpa [sortByPriorityDesc] using mem_foldl_insert (x := x) l []

/-- The executed entries of one tick are exactly the due tasks, in
registry order, each with its execution outcome. -/
theorem runTasks_fst :
    ∀ (l : List Task) (now : Int),
      (runTasks l now).1
        = (l.filter (fun t => should_run t now)).map
            (fun t => PulseExecEntry.mk t.name (execute t now).1) := by
  intro l
  induction l with
  | nil => intro now; simp [runTasks]
  | cons t rest ih =>
      intro now
      by_cases h : should_run t now <;>
        simp [runTasks, h, List.filter_cons, ih]

/-- The registry after one tick: due tasks are replaced by their
executed update, the rest are untouched, order preserved. -/
theorem runTasks_snd :
    ∀ (l : List Task) (now : Int),
      (runTasks l now).2
        = l.map (fun t => if should_run t now then (execute t now).2 else t) := by
  intro l
  induction l with
  | nil => intro now; simp [runTasks]
  | cons t rest ih =>
      intro now
      by_cases h : should_run t now <;>
        simp [runTasks, h, ih]

/-- The pulse record of a tick. -/
theorem pulse_fst (hb : Heartbeat) (w : World) (now : Int) :
    (pulse hb w now).1
      = ⟨"heartbeat", hb.pulse_count + 1, (runTasks hb.tasks now).1.length,
          (runTasks hb.tasks now).1⟩ := rfl

/-- The scheduler state after a tick. -/
theorem pulse_heartbeat (hb : Heartbeat) (w : World) (now : Int) :
    (pulse hb w now).2.1
      = ⟨(runTasks hb.tasks now).2, hb.running, hb.pulse_count + 1⟩ := rfl

/-- The world after a tick: log appended, snapshot overwritten with the
new pulse count. -/
theorem pulse_world (hb : Heartbeat) (w : World) (now : Int) :
    (pulse hb w now).2.2
      = ⟨SnapshotFile.parsed (some (hb.pulse_count + 1)),
          w.log ++ [(pulse hb w now).1]⟩ := rfl

/-- Registration never changes the pulse counter. -/
theorem foldl_register_pulse_count :
    ∀ (ts : List Task) (hb : Heartbeat),
      (ts.foldl register_task hb).pulse_count = hb.pulse_count := by
  intro ts
  induction ts with
  | nil => intro hb; rfl
  | cons t rest ih => intro hb; simpa [register_task] using ih (register_task hb t)

/-- A freshly constructed scheduler resumes the pulse counter from the
snapshot file. -/
theorem mkHeartbeat_pulse_count (core : List Task) (w : World) :
    (mkHeartbeat core w).pulse_count = loadState w.state_file := by
  simpa [mkHeartbeat] using
    foldl_register_pulse_count core ⟨[], false, loadState w.state_file⟩

/-- Step range lemma for consecutive pulse numbers. -/
theorem range'_one_concat (n : Nat) :
    List.range' 1 (n + 1) = List.range' 1 n ++ [n + 1] := by
  have h : List.range' 1 (n + 1) 1 = List.range' 1 n 1 ++ [1 + 1 * n] :=
    List.range'_concat 1 n
  simpa [Nat.add_comm] using h

/-- Trace invariant: the snapshot always stores the current pulse
counter and the emitted pulse numbers so far are exactly `1..count`. -/
theorem runEvents_invariant (core : List Task) :
    ∀ (es : List Event) (s : SysState),
      loadState s.world.state_file = s.hb.pulse_count →
      s.emitted = List.range' 1 s.hb.pulse_count →
      (es.foldl (stepEvent core) s).hb.pulse_count = s.hb.pulse_count + numTicks es ∧
      loadState (es.foldl (stepEvent core) s).world.state_file
        = s.hb.pulse_count + numTicks es ∧
      (es.foldl (stepEvent core) s).emitted
        = List.range' 1 (s.hb.pulse_count + numTicks es) := by
  intro es
  induction es with
  | nil =>
      intro s h1 h2
      refine ⟨?_, ?_, ?_⟩ <;> simp [numTicks, h1, h2]
  | cons e rest ih =>
      intro s h1 h2
      cases e with
      | tick now =>
          have hstep : stepEvent core s (Event.tick now)
              = ⟨(pulse s.hb s.world now).2.1, (pulse s.hb s.world now).2.2,
                  s.emitted ++ [(pulse s.hb s.world now).1.pulse_number]⟩ := rfl
          have hrec := ih (stepEvent core s (Event.tick now))
            (by rw [hstep]; simp [pulse_heartbeat, pulse_world, loadState])
            (by
              rw [hstep]
              simp only [pulse_heartbeat, pulse_fst, h2]
              exact (range'_one_concat s.hb.pulse_count).symm)
          have hcount : (stepEvent core s (Event.tick now)).hb.pulse_count
              = s.hb.pulse_count + 1 := by
            rw [hstep]; simp [pulse_heartbeat]
          have hnum : numTicks (Event.tick now :: rest) = numTicks rest + 1 := by
            simp [numTicks, List.countP_cons]
          rw [List.foldl_cons]
          refine ⟨?_, ?_, ?_⟩
          · rw [hrec.1, hcount, hnum]; omega
          · rw [hrec.2.1, hcount, hnum]; omega
          · rw [hrec.2.2, hcount, hnum]
            congr 1
            omega
      | stopEv =>
          have hstep : stepEvent core s Event.stopEv
              = ⟨(stop s.hb s.world).1, (stop s.hb s.world).2, s.emitted⟩ := rfl
          have hrec := ih (stepEvent core s Event.stopEv)
            (by rw [hstep]; simp [stop, save_state, loadState])
            (by rw [hstep]; simpa [stop] using h2)
          have hcount : (stepEvent core s Event.stopEv).hb.pulse_count
              = s.hb.pulse_count := by rw [hstep]; simp [stop]
          have hnum : numTicks (Event.stopEv :: rest) = numTicks rest := by
            simp [numTicks, List.countP_cons]
          rw [List.foldl_cons]
          refine ⟨?_, ?_, ?_⟩
          · rw [hrec.1, hcount, hnum]
          · rw [hrec.2.1, hcount, hnum]
          · rw [hrec.2.2, hcount, hnum]
      | restart =>
          have hstep : stepEvent core s Event.restart
              = ⟨mkHeartbeat core s.world, s.world, s.emitted⟩ := rfl
          have hcount : (stepEvent core s Event.restart).hb.pulse_count
              = s.hb.pulse_count := by
            rw [hstep]
            simp only [mkHeartbeat_pulse_count]
            exact h1
          have hrec := ih (stepEvent core s Event.restart)
            (by rw [hstep]; simp [mkHeartbeat_pulse_count])
            (by
              rw [hstep]
              simp only [mkHeartbeat_pulse_count, h1]
              exact h2)
          have hnum : numTicks (Event.restart :: rest) = numTicks rest := by
            simp [numTicks, List.countP_cons]
          rw [List.foldl_cons]
          refine ⟨?_, ?_, ?_⟩
          · rw [hrec.1, hcount, hnum]
          · rw [hrec.2.1, hcount, hnum]
          · rw [hrec.2.2, hcount, hnum]

/-- C1, counterexample: the claim says a failing `execute` records
`last_run = now`.  On the concrete task named "f" (interval 10, action
always raising "boom", never run before), `execute` at time 5 leaves
`last_run = None` — not `now` — while it does increment the error count
and return the failure dict. -/
theorem claim1_counterexample :
    (execute (mkTask "f" 10 (Except.error "boom") 5) 5).2.last_run ≠ some 5 ∧
    (execute (mkTask "f" 10 (Except.error "boom") 5) 5).2.last_run = none ∧
    (execute (mkTask "f" 10 (Except.error "boom") 5) 5).1 = Outcome.failure "boom" ∧
    (execute (mkTask "f" 10 (Except.error "boom") 5) 5).2.errors = 1 := by
  refine ⟨?_, rfl, rfl, rfl⟩
  decide

/-- C1, amended: a call to `execute` whose action fails increments
`error_count` by 1 and returns the failure dict with the error message,
but leaves `last_run` unchanged — `last_run` is updated only on
successful invocations, not on every attempt. -/
theorem claim1_failure_effect (t : Task) (now : Int) (e : String)
    (h : t.action = Except.error e) :
    execute t now = (Outcome.failure e, { t with errors := t.errors + 1 }) := by
  simp [execute, h]

/-- C1, witness: the amended failure effect on the concrete task of the
counterexample. -/
theorem claim1_failure_effect_witness :
    (mkTask "f" 10 (Except.error "boom") 5).action = Except.error "boom" ∧
    execute (mkTask "f" 10 (Except.error "boom") 5) 5
      = (Outcome.failure "boom",
          { mkTask "f" 10 (Except.error "boom") 5 with errors := 1 }) :=
  ⟨rfl, claim1_failure_effect (mkTask "f" 10 (Except.error "boom") 5) 5 "boom" rfl⟩

/-- C2, counterexample: a task with interval 10 whose action always
fails is invoked on two consecutive ticks at times 0 and 1 — twice
within a window of length 10 — because a failing `execute` never sets
`last_run`, so the task stays due on every tick. -/
theorem claim2_counterexample :
    (1 : Int) - 0 < 10 ∧
    (pulse ⟨[mkTask "f" 10 (Except.error "boom") 5], false, 0⟩ initWorld 0).1.details.map
        (fun d => d.task) = ["f"] ∧
    ((pulse
        (pulse ⟨[mkTask "f" 10 (Except.error "boom") 5], false, 0⟩ initWorld 0).2.1
        (pulse ⟨[mkTask "f" 10 (Except.error "boom") 5], false, 0⟩ initWorld 0).2.2
        1).1.details.map (fun d => d.task)) = ["f"] := by
  refine ⟨by decide, rfl, rfl⟩

/-- C2, amended: a task whose action always fails never has `last_run`
set, so it stays due on every tick regardless of its interval: over any
sequence of ticks of a single-task scheduler it is invoked on every
tick (it may run arbitrarily often within a window of length I), and
`error_count` increases by 1 per tick. -/
theorem claim2_failing_task_every_tick :
    ∀ (nm e : String) (i pri : Int) (rc k c : Nat) (w : World) (times : List Int),
      (runPulses ⟨[⟨nm, i, Except.error e, pri, none, rc, k⟩], false, c⟩ w times).1.tasks
          = [⟨nm, i, Except.error e, pri, none, rc, k + times.length⟩] ∧
      (runPulses ⟨[⟨nm, i, Except.error e, pri, none, rc, k⟩], false, c⟩ w times).2.2.map
          (fun p => p.details.map (fun d => d.task))
        = times.map (fun _ => [nm]) := by
  intro nm e i pri rc k c w times
  induction times generalizing k c w with
  | nil => simp [runPulses]
  | cons now rest ih =>
      have hdue : should_run ⟨nm, i, Except.error e, pri, none, rc, k⟩ now = true := rfl
      have hpulse :
          pulse ⟨[⟨nm, i, Except.error e, pri, none, rc, k⟩], false, c⟩ w now
            = (⟨"heartbeat", c + 1, 1, [PulseExecEntry.mk nm (Outcome.failure e)]⟩,
                ⟨[⟨nm, i, Except.error e, pri, none, rc, k + 1⟩], false, c + 1⟩,
                save_state ⟨[⟨nm, i, Except.error e, pri, none, rc, k + 1⟩], false, c + 1⟩
                  (log_pulse ⟨"heartbeat", c + 1, 1, [PulseExecEntry.mk nm (Outcome.failure e)]⟩ w)) := by
        simp [pulse, runTasks, hdue, execute]
      refine ⟨?_, ?_⟩
      · simp only [runPulses, hpulse]
        have := (ih (k + 1) (c + 1)
          (save_state ⟨[⟨nm, i, Except.error e, pri, none, rc, k + 1⟩], false, c + 1⟩
            (log_pulse ⟨"heartbeat", c + 1, 1, [PulseExecEntry.mk nm (Outcome.failure e)]⟩ w))).1
        rw [this]
        simp only [List.length_cons]
        congr 2
        omega
      · simp only [runPulses, hpulse]
        have := (ih (k + 1) (c + 1)
          (save_state ⟨[⟨nm, i, Except.error e, pri, none, rc, k + 1⟩], false, c + 1⟩
            (log_pulse ⟨"heartbeat", c + 1, 1, [PulseExecEntry.mk nm (Outcome.failure e)]⟩ w))).2
        simp [this]

/-- C3, counterexample: constructing a task with interval 0 and
registering it succeeds silently: the constructor stores the invalid
interval unchanged and `register_task` puts the task in the registry —
no error path exists. -/
theorem claim3_counterexample :
    (mkTask "b" 0 (Except.ok "r") 5).interval = 0 ∧
    (register_task ⟨[], false, 0⟩ (mkTask "b" 0 (Except.ok "r") 5)).tasks
      = [mkTask "b" 0 (Except.ok "r") 5] := by
  exact ⟨rfl, rfl⟩

/-- C3, amended: neither the task constructor nor `register_task`
validates the interval: a task with zero or negative interval is
accepted silently into the registry, and (with a monotone clock) such a
task is due on every tick — the busy loop the spec wanted to reject is
exactly what the code produces. -/
theorem claim3_invalid_interval_accepted
    (nm : String) (act : Except String String) (pri i : Int) (hb : Heartbeat)
    (hi : i ≤ 0) :
    mkTask nm i act pri ∈ (register_task hb (mkTask nm i act pri)).tasks ∧
    (∀ now : Int, should_run (mkTask nm i act pri) now = true) ∧
    (∀ (lr now : Int) (rc ec : Nat), lr ≤ now →
      should_run ⟨nm, i, act, pri, some lr, rc, ec⟩ now = true) := by
  refine ⟨?_, ?_, ?_⟩
  · simp [register_task, mem_sortByPriorityDesc]
  · intro now
    rfl
  · intro lr now rc ec hle
    simp only [should_run, decide_eq_true_eq]
    omega

/-- C3, witness: the zero-interval task of the counterexample is in the
registry and due at time 7 even though it last ran at time 7. -/
theorem claim3_invalid_interval_witness :
    (0 : Int) ≤ 0 ∧
    mkTask "b" 0 (Except.ok "r") 5
      ∈ (register_task ⟨[], false, 0⟩ (mkTask "b" 0 (Except.ok "r") 5)).tasks ∧
    should_run ⟨"b", 0, Except.ok "r", 5, some 7, 1, 0⟩ 7 = true := by
  have h := claim3_invalid_interval_accepted "b" (Except.ok "r") 5 0
    ⟨[], false, 0⟩ (by decide)
  exact ⟨by decide, h.1, h.2.2 7 7 1 0 (by decide)⟩

/-- C4: over any scheduler lifetime — ticks interleaved with stops and
restarts, starting from a fresh deployment — the emitted pulse numbers
are exactly 1, 2, ..., n for n ticks: each tick increments the number
by exactly 1, a restart resumes the counter from the `total_pulses`
snapshot value, and no pulse number is repeated or skipped. -/
theorem claim4_pulse_numbers (core : List Task) (es : List Event) :
    (runEvents core es).emitted = List.range' 1 (numTicks es) ∧
    (runEvents core es).hb.pulse_count = numTicks es ∧
    loadState (runEvents core es).world.state_file = numTicks es := by
  have hinit1 : loadState (⟨mkHeartbeat core initWorld, initWorld, []⟩ : SysState).world.state_file
      = (⟨mkHeartbeat core initWorld, initWorld, []⟩ : SysState).hb.pulse_count := by
    simp [mkHeartbeat_pulse_count]
  have hinit2 : (⟨mkHeartbeat core initWorld, initWorld, []⟩ : SysState).emitted
      = List.range' 1 (⟨mkHeartbeat core initWorld, initWorld, []⟩ : SysState).hb.pulse_count := by
    simp [mkHeartbeat_pulse_count, initWorld, loadState]
  have h := runEvents_invariant core es ⟨mkHeartbeat core initWorld, initWorld, []⟩ hinit1 hinit2
  have hzero : (⟨mkHeartbeat core initWorld, initWorld, []⟩ : SysState).hb.pulse_count = 0 := by
    simp [mkHeartbeat_pulse_count, initWorld, loadState]
  rw [hzero, Nat.zero_add] at h
  simpa [runEvents] using ⟨h.2.2, h.1, h.2.1⟩

/-- C5: after any sequence of registrations from an empty registry the
registry is sorted by descending priority, each priority class keeps
its registration order (stability), and a tick executes exactly the due
tasks in registry order, each recorded with its outcome. -/
theorem claim5_registry_order :
    (∀ (ts : List Task) (r : Bool) (c : Nat),
      List.Pairwise (fun a b => b.priority ≤ a.priority)
        ((ts.foldl register_task ⟨[], r, c⟩).tasks) ∧
      ∀ p : Int,
        ((ts.foldl register_task ⟨[], r, c⟩).tasks).filter (fun u => u.priority == p)
          = ts.filter (fun u => u.priority == p)) ∧
    (∀ (hb : Heartbeat) (w : World) (now : Int),
      (pulse hb w now).1.details
        = (hb.tasks.filter (fun t => should_run t now)).map
            (fun t => PulseExecEntry.mk t.name (execute t now).1)) := by
  refine ⟨?_, ?_⟩
  · intro ts r c
    rw [registry_eq_sort]
    exact ⟨sortByPriorityDesc_pairwise ts, fun p => sortByPriorityDesc_filter p ts⟩
  · intro hb w now
    rw [pulse_fst]
    exact runTasks_fst hb.tasks now

/-- C6, counterexample: the claim's window property quantifies over
every `execute`, but a failing `execute` does not set `last_run`: after
the never-run task "f" (interval 10, always-failing action) executes at
time 0, `should_run` at query time 0 — inside the window [0, 10) — is
still true, where the claim requires false. -/
theorem claim6_counterexample :
    (0 : Int) ≤ 0 ∧ (0 : Int) < 0 + 10 ∧
    should_run ((execute (mkTask "f" 10 (Except.error "boom") 5) 0).2) 0 = true := by
  exact ⟨by decide, by decide, rfl⟩

/-- C6, amended: `should_run` is a pure predicate, true iff `last_run`
is absent or `now - last_run ≥ interval`; and after a SUCCESSFUL
execution at time t, `should_run` is false at every query time in
[t, t+I) and true at t+I or later.  (After a failed execution
`last_run` is unchanged, so the window guarantee holds only for
successful runs.) -/
theorem claim6_should_run_window :
    (∀ (t : Task) (now : Int),
      should_run t now = true ↔
        (t.last_run = none ∨ ∃ lr, t.last_run = some lr ∧ t.interval ≤ now - lr)) ∧
    (∀ (t : Task) (texec q : Int) (r : String), t.action = Except.ok r →
      ((texec ≤ q ∧ q < texec + t.interval) →
        should_run (execute t texec).2 q = false) ∧
      (texec + t.interval ≤ q → should_run (execute t texec).2 q = true)) := by
  refine ⟨?_, ?_⟩
  · intro t now
    cases h : t.last_run with
    | none => simp [should_run, h]
    | some lr => simp [should_run, h]
  · intro t texec q r hok
    have hexec : (execute t texec).2.last_run = some texec := by
      simp [execute, hok]
    have hint : (execute t texec).2.interval = t.interval := by
      simp [execute, hok]
    constructor
    · intro hq
      simp only [should_run, hexec, hint, decide_eq_false_iff_not]
      omega
    · intro hq
      simp only [should_run, hexec, hint, decide_eq_true_eq]
      omega

/-- C6, witness: on a concrete successful run at time 2 with interval
10, the query at time 5 (inside the window) is not due and the query at
time 12 (at t+I) is due. -/
theorem claim6_should_run_window_witness :
    (mkTask "g" 10 (Except.ok "r") 5).action = Except.ok "r" ∧
    should_run (execute (mkTask "g" 10 (Except.ok "r") 5) 2).2 5 = false ∧
    should_run (execute (mkTask "g" 10 (Except.ok "r") 5) 2).2 12 = true := by
  refine ⟨rfl, ?_, ?_⟩
  · exact (claim6_should_run_window.2 (mkTask "g" 10 (Except.ok "r") 5) 2 5 "r" rfl).1
      (by constructor <;> decide)
  · exact (claim6_should_run_window.2 (mkTask "g" 10 (Except.ok "r") 5) 2 12 "r" rfl).2
      (by decide)

/-- C7: a tick in which no task is due still produces a pulse with an
empty executed list and zero executed count, carries the incremented
pulse number, appends the pulse to the durable log, and overwrites the
state snapshot — it is not skipped. -/
theorem claim7_empty_pulse (hb : Heartbeat) (w : World) (now : Int)
    (h : ∀ t ∈ hb.tasks, should_run t now = false) :
    (pulse hb w now).1.details = [] ∧
    (pulse hb w now).1.tasks_executed = 0 ∧
    (pulse hb w now).1.pulse_number = hb.pulse_count + 1 ∧
    (pulse hb w now).2.2.log = w.log ++ [(pulse hb w now).1] ∧
    (pulse hb w now).2.2.state_file
      = SnapshotFile.parsed (some (hb.pulse_count + 1)) := by
  have hfil : hb.tasks.filter (fun t => should_run t now) = [] :=
    List.filter_eq_nil_iff.mpr (by simpa using h)
  have hdet : (pulse hb w now).1.details = [] := by
    rw [pulse_fst]
    simp [runTasks_fst, hfil]
  refine ⟨hdet, ?_, rfl, ?_, rfl⟩
  · rw [pulse_fst]
    simp only [pulse_fst] at hdet
    simp [runTasks_fst, hfil]
  · rw [pulse_world]

/-- C7, witness: a concrete scheduler whose single task ran at time 0
with interval 10, ticked at time 5: nothing is due, yet the pulse is
produced, logged, and the snapshot written. -/
theorem claim7_empty_pulse_witness :
    (∀ t ∈ (⟨[⟨"a", 10, Except.ok "r", 5, some 0, 1, 0⟩], false, 3⟩ : Heartbeat).tasks,
      should_run t 5 = false) ∧
    (pulse ⟨[⟨"a", 10, Except.ok "r", 5, some 0, 1, 0⟩], false, 3⟩ initWorld 5).1.details = [] ∧
    (pulse ⟨[⟨"a", 10, Except.ok "r", 5, some 0, 1, 0⟩], false, 3⟩ initWorld 5).1.pulse_number = 4 := by
  have h := claim7_empty_pulse
    ⟨[⟨"a", 10, Except.ok "r", 5, some 0, 1, 0⟩], false, 3⟩ initWorld 5 (by decide)
  exact ⟨by decide, h.1, h.2.2.1⟩

/-- C8: task failures are fully contained.  In any tick: the executed
entries cover exactly the due tasks in order, so a failing task never
prevents a later (lower-priority) due task from executing; a failing
due task's error is captured in its failure entry and in its
incremented error count; and the tick still appends its pulse to the
log — `pulse` is a total function, so no task error is ever propagated
to its caller. -/
theorem claim8_failure_containment (hb : Heartbeat) (w : World) (now : Int) :
    ((pulse hb w now).1.details.map (fun d => d.task)
        = (hb.tasks.filter (fun t => should_run t now)).map (fun t => t.name)) ∧
    (∀ t ∈ hb.tasks, ∀ e : String, t.action = Except.error e →
      should_run t now = true →
        PulseExecEntry.mk t.name (Outcome.failure e) ∈ (pulse hb w now).1.details) ∧
    ((pulse hb w now).2.1.tasks
        = hb.tasks.map (fun t => if should_run t now then (execute t now).2 else t)) ∧
    ((pulse hb w now).2.2.log = w.log ++ [(pulse hb w now).1]) := by
  refine ⟨?_, ?_, ?_, ?_⟩
  · rw [pulse_fst]
    simp [runTasks_fst]
  · intro t ht e he hdue
    rw [pulse_fst]
    simp only [runTasks_fst, List.mem_map]
    refine ⟨t, List.mem_filter.mpr ⟨ht, by simpa using hdue⟩, ?_⟩
    simp [execute, he]
  · rw [pulse_heartbeat]
    simp [runTasks_snd]
  · rw [pulse_world]

/-- C8, witness: a scheduler with a failing high-priority task and a
succeeding lower-priority task, ticked at time 0: the failure entry is
recorded, and the lower-priority task still executes after it. -/
theorem claim8_failure_containment_witness :
    (mkTask "bad" 10 (Except.error "boom") 9).action = Except.error "boom" ∧
    should_run (mkTask "bad" 10 (Except.error "boom") 9) 0 = true ∧
    PulseExecEntry.mk "bad" (Outcome.failure "boom")
      ∈ (pulse ⟨[mkTask "bad" 10 (Except.error "boom") 9,
                  mkTask "ok" 10 (Except.ok "fine") 5], false, 0⟩ initWorld 0).1.details ∧
    (pulse ⟨[mkTask "bad" 10 (Except.error "boom") 9,
              mkTask "ok" 10 (Except.ok "fine") 5], false, 0⟩ initWorld 0).1.details.map
        (fun d => d.task) = ["bad", "ok"] := by
  have h := claim8_failure_containment
    ⟨[mkTask "bad" 10 (Except.error "boom") 9,
      mkTask "ok" 10 (Except.ok "fine") 5], false, 0⟩ initWorld 0
  refine ⟨rfl, rfl, ?_, by decide⟩
  exact h.2.1 (mkTask "bad" 10 (Except.error "boom") 9) (by simp) "boom" rfl rfl

/-- C9: frame conditions of the run metadata.  `execute` never changes
`name`, `interval`, `priority` or `action`; a successful call
increments exactly `run_count` by 1 (errors unchanged) and sets
`last_run`; a failing call increments exactly `errors` by 1, leaving
`run_count` and `last_run` unchanged.  A tick preserves every task's
configuration fields, and `status` is a pure read-only projection of
the scheduler state. -/
theorem claim9_frame_conditions :
    (∀ (t : Task) (now : Int),
      (execute t now).2.name = t.name ∧
      (execute t now).2.interval = t.interval ∧
      (execute t now).2.priority = t.priority ∧
      (execute t now).2.action = t.action) ∧
    (∀ (t : Task) (now : Int) (r : String), t.action = Except.ok r →
      (execute t now).2.run_count = t.run_count + 1 ∧
      (execute t now).2.errors = t.errors ∧
      (execute t now).2.last_run = some now) ∧
    (∀ (t : Task) (now : Int) (e : String), t.action = Except.error e →
      (execute t now).2.errors = t.errors + 1 ∧
      (execute t now).2.run_count = t.run_count ∧
      (execute t now).2.last_run = t.last_run) ∧
    (∀ (hb : Heartbeat) (w : World) (now : Int),
      (pulse hb w now).2.1.tasks.map (fun u => (u.name, u.interval, u.priority, u.action))
        = hb.tasks.map (fun u => (u.name, u.interval, u.priority, u.action))) ∧
    (∀ hb : Heartbeat,
      status hb = ⟨"1.0.0", hb.running, hb.pulse_count,
        hb.tasks.map (fun t => ⟨t.name, t.interval, t.run_count, t.errors, t.priority⟩)⟩) := by
  refine ⟨?_, ?_, ?_, ?_, ?_⟩
  · intro t now
    cases h : t.action <;> simp [execute, h]
  · intro t now r h
    simp [execute, h]
  · intro t now e h
    simp [execute, h]
  · intro hb w now
    rw [pulse_heartbeat]
    simp only [runTasks_snd, List.map_map]
    apply List.map_congr_left
    intro t _
    by_cases h : should_run t now
    · cases ha : t.action <;> simp [h, execute, ha]
    · simp [h]
  · intro hb
    rfl

/-- C9, witness: the frame conditions evaluated on concrete successful
and failing executions. -/
theorem claim9_frame_conditions_witness :
    (mkTask "g" 10 (Except.ok "r") 5).action = Except.ok "r" ∧
    (execute (mkTask "g" 10 (Except.ok "r") 5) 2).2.run_count = 1 ∧
    (mkTask "f" 10 (Except.error "boom") 5).action = Except.error "boom" ∧
    (execute (mkTask "f" 10 (Except.error "boom") 5) 2).2.errors = 1 ∧
    (execute (mkTask "f" 10 (Except.error "boom") 5) 2).2.last_run = none := by
  have hok := claim9_frame_conditions.2.1 (mkTask "g" 10 (Except.ok "r") 5) 2 "r" rfl
  have herr := claim9_frame_conditions.2.2.1 (mkTask "f" 10 (Except.error "boom") 5) 2 "boom" rfl
  exact ⟨rfl, hok.1, rfl, herr.1, herr.2.2⟩

/-- C10: constructing a scheduler never fails because of the state
snapshot (the construction is a total function of the file state): an
absent file and an unparseable file both leave `pulse_count = 0`, a
parsed file without a `total_pulses` field yields the default 0, and a
parsed `total_pulses` value is adopted. -/
theorem claim10_snapshot_recovery :
    (∀ (core : List Task) (w : World),
      (mkHeartbeat core w).pulse_count = loadState w.state_file) ∧
    loadState SnapshotFile.absent = 0 ∧
    loadState SnapshotFile.unparseable = 0 ∧
    loadState (SnapshotFile.parsed none) = 0 ∧
    (∀ n : Nat, loadState (SnapshotFile.parsed (some n)) = n) := by
  exact ⟨mkHeartbeat_pulse_count, rfl, rfl, rfl, fun _ => rfl⟩

end Orion
